import Mathlib

/-!
Verification of the DataBridge repository's specification against its source.

The frontend pipeline (App.tsx), the AI mapping simulator
(src/utils/aiMappingSimulator.ts) and the Express chatbot server
(server/index.js) are embedded shallowly below; the in-process agent
orchestration core (capability registry, resource allocation policy) is
present in the repository only through its documentation, so those parts
are modelled from the specification and clearly marked as such.
-/

namespace DataBridge

namespace Sim

/-- Mapping status, from the FieldMapping interface of aiMappingSimulator.ts. -/
inductive MapStatus where
  | confirmed
  | suggested
  | manual
deriving DecidableEq, Repr

/-- A proposed field mapping, from the FieldMapping interface of
aiMappingSimulator.ts.  The JS number confidence is embedded as a rational. -/
structure FieldMapping where
  sourceField : String
  targetField : String
  confidence : ℚ
  status : MapStatus
deriving DecidableEq, Repr

/-- The character class of the regex in calculateSimilarity (underscore,
whitespace, hyphen), whose occurrences are removed before comparison. -/
def isSep (c : Char) : Bool :=
  c = '_' || c = ' ' || c = '-' || c = '\t' || c = '\n' || c = '\r'

/-- str.toLowerCase followed by removing the separator characters, as done to
both inputs at the top of calculateSimilarity. -/
def normalize (s : List Char) : List Char :=
  (s.map Char.toLower).filter (fun c => !isSep c)

/-- Removing separator characters only (the replace applied to each synonym
variant inside the synonym check, which does not lowercase). -/
def stripSep (s : List Char) : List Char :=
  s.filter (fun c => !isSep c)

/-- The fieldSynonyms table of aiMappingSimulator.ts; each group lists the
canonical name first followed by its variants. -/
def fieldSynonyms : List (List String) := [
  ["account_number", "account_num", "acct_number", "account_id", "acct_no", "account"],
  ["customer_name", "client_name", "name", "customer", "client", "full_name"],
  ["balance", "amount", "account_balance", "current_balance", "bal"],
  ["transaction_date", "date", "trans_date", "transaction_dt", "txn_date"],
  ["transaction_id", "trans_id", "txn_id", "transaction_number", "reference"],
  ["branch_code", "branch", "branch_id", "location_code", "branch_number"],
  ["email", "email_address", "contact_email", "e_mail"],
  ["phone", "phone_number", "contact_number", "telephone", "mobile"],
  ["address", "street_address", "location", "full_address"],
  ["account_type", "type", "acct_type", "product_type"]]

/-- JS String.prototype.includes on the normalized character lists: true when
the first list occurs contiguously inside the second argument list. -/
def containsSub (small : List Char) : List Char → Bool
  | [] => small.isEmpty
  | b :: bs => small.isPrefixOf (b :: bs) || containsSub small bs

/-- The synonym check of calculateSimilarity: some synonym group contains a
variant stripping to the first name and one stripping to the second. -/
def synonymHit (s1 s2 : List Char) : Bool :=
  fieldSynonyms.any (fun grp =>
    (grp.any (fun v => stripSep v.toList = s1)) &&
    (grp.any (fun v => stripSep v.toList = s2)))

/-- The final branch of calculateSimilarity: the fraction of characters of the
shorter normalized name occurring somewhere in the longer one. -/
def ratioScore (s1 s2 : List Char) : ℚ :=
  let longer := if s2.length < s1.length then s1 else s2
  let shorter := if s2.length < s1.length then s2 else s1
  ((shorter.countP (fun c => longer.contains c) : ℚ)) / (longer.length : ℚ)

/-- The branch cascade of calculateSimilarity on the normalized names: exact
match scores 1, a shared synonym group scores 0.95, a substring relation
scores 0.75, and otherwise the character-overlap fraction. -/
def simScore (s1 s2 : List Char) : ℚ :=
  if s1 = s2 then 1
  else if synonymHit s1 s2 then 95/100
  else if containsSub s2 s1 || containsSub s1 s2 then 75/100
  else ratioScore s1 s2

/-- calculateSimilarity of aiMappingSimulator.ts. -/
def calculateSimilarity (str1 str2 : String) : ℚ :=
  simScore (normalize str1.toList) (normalize str2.toList)

/-- The running best match of the inner loop of generateAIMappings. -/
structure Best where
  field : String
  confidence : ℚ
deriving Repr

/-- One iteration of the inner loop of generateAIMappings: skip a target that
is already used, otherwise keep it when its similarity strictly beats the
best so far. -/
def bestStep (src : String) (used : List String) (best : Best) (t : String) : Best :=
  if used.contains t then best
  else
    let c := calculateSimilarity src t
    if best.confidence < c then { field := t, confidence := c } else best

/-- The inner loop of generateAIMappings: scan the target fields, skip targets
already used, and keep the target of strictly greatest similarity. -/
def bestMatch (src : String) (targetFields : List String) (used : List String) : Best :=
  targetFields.foldl (bestStep src used) { field := "", confidence := 0 }

/-- The outer loop of generateAIMappings: for each source field in order, take
the best unused target; if its confidence exceeds 0.5, emit a mapping (status
confirmed above 0.8, else suggested) and mark the target used. -/
def generateAIMappingsAux : List String → List String → List String → List FieldMapping
  | [], _, _ => []
  | s :: rest, targetFields, used =>
    let best := bestMatch s targetFields used
    if 1/2 < best.confidence then
      { sourceField := s, targetField := best.field, confidence := best.confidence,
        status := if 4/5 < best.confidence then .confirmed else .suggested } ::
        generateAIMappingsAux rest targetFields (best.field :: used)
    else
      generateAIMappingsAux rest targetFields used

/-- generateAIMappings of aiMappingSimulator.ts. -/
def generateAIMappings (sourceFields targetFields : List String) : List FieldMapping :=
  generateAIMappingsAux sourceFields targetFields []

/-- JS object property assignment on a row represented as an association list
in insertion order: overwrite the value in place if the key exists, otherwise
append the pair. -/
def setKey {α : Type} (row : List (String × α)) (k : String) (v : α) : List (String × α) :=
  if row.any (fun p => p.1 = k) then
    row.map (fun p => if p.1 = k then (k, v) else p)
  else row ++ [(k, v)]

/-- The row transformation inside mergeDatasets: starting from an empty row,
for each mapping whose sourceField the row possesses, write the source value
under the targetField. -/
def transformRow {α : Type} (mappings : List FieldMapping) (row : List (String × α)) :
    List (String × α) :=
  mappings.foldl (fun acc m =>
    match row.lookup m.sourceField with
    | some v => setKey acc m.targetField v
    | none => acc) []

/-- mergeDatasets of aiMappingSimulator.ts: transform every source row through
the mappings and append the target rows unchanged. -/
def mergeDatasets {α : Type} (sourceData targetData : List (List (String × α)))
    (mappings : List FieldMapping) : List (List (String × α)) :=
  sourceData.map (transformRow mappings) ++ targetData

end Sim

namespace Conflict

/-- The conflict kind of the DataConflict interface in
ConflictResolutionPanel.tsx: duplicate, mismatch or format. -/
inductive ConflictType where
  | duplicate
  | mismatch
  | format
deriving DecidableEq, Repr

/-- The severity tag of the DataConflict interface in
ConflictResolutionPanel.tsx: high, medium or low. -/
inductive Severity where
  | high
  | medium
  | low
deriving DecidableEq, Repr

/-- The DataConflict interface of ConflictResolutionPanel.tsx; this is the
conflict record the pipeline UI consumes.  It carries no confidence field. -/
structure DataConflict where
  id : String
  rowNumber : Nat
  field : String
  sourceValue : String
  targetValue : String
  type : ConflictType
  severity : Severity
  aiSuggestion : String
  resolutionOptions : List String
deriving DecidableEq, Repr

/-- Definition following the specification's words for requiresApproval: some
record is flagged, meaning confidence below 0.70 or severity critical or high.
Expressed over the code's DataConflict records, on which the only expressible
part of the flag is severity high: the records carry no confidence score and
admit no critical severity. -/
def requiresApprovalSpec (conflicts : List DataConflict) : Bool :=
  conflicts.any (fun c => c.severity = .high)

/-- The kind set claimed by the specification for conflict records
(type-mismatch, duplicate-key, semantic-ambiguity), read back onto the code's
kind tags: mismatch stands for type-mismatch and duplicate for duplicate-key,
while semantic-ambiguity has no counterpart among the code's tags. -/
def specKind (t : ConflictType) : Prop :=
  t = .mismatch ∨ t = .duplicate

instance (t : ConflictType) : Decidable (specKind t) := by
  unfold specKind; infer_instance

end Conflict

namespace App

/-- The Step union of App.tsx: upload, mapping, conflicts, results. -/
inductive Step where
  | upload
  | mapping
  | conflicts
  | results
deriving DecidableEq, Repr

/-- Position of a step along the pipeline direction of travel. -/
def Step.idx : Step → Nat
  | .upload => 0
  | .mapping => 1
  | .conflicts => 2
  | .results => 3

/-- A data row of the UI, a JS object in insertion order. -/
abbrev Row := List (String × String)

/-- getFieldNames of csvParser.ts: the keys of the first row, or none. -/
def getFieldNames (data : List Row) : List String :=
  match data with
  | [] => []
  | row :: _ => row.map (·.1)

/-- The slice of App.tsx component state the pipeline logic reads and writes:
the current step, the two datasets, the proposed mappings, the merged output
and the (fixed) conflict list. -/
structure AppState where
  step : Step
  sourceData : List Row
  targetData : List Row
  mappings : List Sim.FieldMapping
  mergedData : List Row
  conflicts : List Conflict.DataConflict
deriving Repr

/-- handleAnalyze of App.tsx, applied once parsing has succeeded with the
given parsed datasets: with fewer than two uploaded files it does nothing,
otherwise it moves to the mapping step, stores the first two datasets and
generates the AI mappings from their field names. -/
def handleAnalyze (s : AppState) (parsed : List (List Row)) : AppState :=
  if parsed.length < 2 then s
  else
    match parsed with
    | d1 :: d2 :: _ =>
      { s with
        step := .mapping
        sourceData := d1
        targetData := d2
        mappings := Sim.generateAIMappings (getFieldNames d1) (getFieldNames d2) }
    | _ => s

/-- handleContinueToConflicts of App.tsx: move to the conflicts step. -/
def handleContinueToConflicts (s : AppState) : AppState :=
  { s with step := .conflicts }

/-- handleMerge of App.tsx: merge the datasets through the mappings and move
to the results step.  It consults neither the conflict list nor any
resolution state, and the panel's Auto-Resolve-All button is wired directly
to this same handler (onResolveAll is handleMerge). -/
def handleMerge (s : AppState) : AppState :=
  { s with
    step := .results
    mergedData := Sim.mergeDatasets s.sourceData s.targetData s.mappings }

/-- The Back-to-Mappings button of the conflicts view in App.tsx: set the
current step back to mapping. -/
def backToMappings (s : AppState) : AppState :=
  { s with step := .mapping }

/-- handleStartNew of App.tsx: reset to the upload step and clear the data. -/
def handleStartNew (s : AppState) : AppState :=
  { s with
    step := .upload
    sourceData := []
    targetData := []
    mergedData := []
    mappings := [] }

end App

namespace Server

/-- The slice of a spawned MCP child process the server observes: whether it
has been killed. -/
structure ProcState where
  killed : Bool
deriving DecidableEq, Repr

/-- The hard-coded per-invocation timeout of sendToMCPServer in
server/index.js: 30000 milliseconds. -/
def mcpTimeoutMs : Nat := 30000

/-- Outcome of one sendToMCPServer invocation: either the parsed response or
the timeout rejection.  There is no indeterminate outcome. -/
inductive MCPOutcome (α : Type) where
  | ok (response : α)
  | timedOut
deriving DecidableEq, Repr

/-- sendToMCPServer of server/index.js: resolve with the first parseable JSON
response when it arrives strictly before the 30000 ms timer fires, otherwise
reject with the timeout error.  The child process is returned untouched in
both cases: the code never kills it nor cancels the in-flight request. -/
def sendToMCPServer {α : Type} (proc : ProcState) (respondsAt : Nat) (response : α) :
    MCPOutcome α × ProcState :=
  if respondsAt < mcpTimeoutMs then (.ok response, proc) else (.timedOut, proc)

/-- The timeout in force for a given invocation.  sendToMCPServer accepts no
timeout argument and reads no configuration, so the constant 30000 applies to
every request; the request argument is ignored, mirroring that. -/
def timeoutInForce (_request : String) : Nat := mcpTimeoutMs

/-- The way the specification's claim of a configurable timeout would read on
this embedding: the timeout in force can differ between two invocations. -/
def timeoutConfigurable : Prop :=
  ∃ r₁ r₂ : String, timeoutInForce r₁ ≠ timeoutInForce r₂

/-- An HTTP response of the chatbot endpoint: status plus optional error and
result payloads. -/
structure HttpResponse where
  status : Nat
  error : Option String
  result : Option String
deriving DecidableEq, Repr

/-- The body of a POST to /api/chatbot; only the message field is inspected
before the MCP call. -/
structure ChatbotBody where
  message : Option String
deriving DecidableEq, Repr

/-- The falsiness test on req.body.message: absent or empty means missing. -/
def messageMissing (m : Option String) : Bool :=
  match m with
  | none => true
  | some s => s = ""

/-- Replace or create the entry under the key main in the process table, as
mcpProcesses.set of server/index.js does. -/
def setMain (table : List (String × ProcState)) (p : ProcState) :
    List (String × ProcState) :=
  if table.any (fun q => q.1 = "main") then
    table.map (fun q => if q.1 = "main" then ("main", p) else q)
  else table ++ [("main", p)]

/-- The POST /api/chatbot handler of server/index.js.  The environment of the
request is passed explicitly: the current process table, the process a spawn
would produce, the time at which the MCP server answers and its answer, an
error payload or a result.  A missing message returns 400 before the process
table is read or written; otherwise the main process is fetched (respawned if
absent or killed) and the request forwarded, with MCP errors and timeouts
mapped to 500. -/
def chatbotPost (body : ChatbotBody) (table : List (String × ProcState))
    (freshProc : ProcState) (respondsAt : Nat) (mcpError : Option String)
    (mcpResult : String) : HttpResponse × List (String × ProcState) :=
  if messageMissing body.message then
    ({ status := 400, error := some "Message is required", result := none }, table)
  else
    let (proc, table') :=
      match table.lookup "main" with
      | some p => if p.killed then (freshProc, setMain table freshProc) else (p, table)
      | none => (freshProc, setMain table freshProc)
    match sendToMCPServer proc respondsAt (mcpError, mcpResult) with
    | (.ok (some e, _), _) =>
      ({ status := 500, error := some e, result := none }, table')
    | (.ok (none, r), _) =>
      ({ status := 200, error := none, result := some r }, table')
    | (.timedOut, _) =>
      ({ status := 500, error := some "Internal server error", result := none }, table')

end Server

namespace Alloc

/-- Warehouse size tier of the allocation table (section 4.3 of the spec). -/
inductive Tier where
  | small
  | medium
  | xlarge
deriving DecidableEq, Repr

/-- Position of a tier in the small, medium, x-large order. -/
def Tier.rank : Tier → Nat
  | .small => 0
  | .medium => 1
  | .xlarge => 2

/-- A ResourceAllocationDecision: schema-analysis instance count, merge
instance count, warehouse tier. -/
structure Allocation where
  schemaAgents : Nat
  mergeAgents : Nat
  tier : Tier
deriving DecidableEq, Repr

/-- Componentwise order on allocations, tiers ordered by rank. -/
def Allocation.le (a b : Allocation) : Prop :=
  a.schemaAgents ≤ b.schemaAgents ∧ a.mergeAgents ≤ b.mergeAgents ∧
    a.tier.rank ≤ b.tier.rank

/-- Modelled from the spec: the Resource Allocation Policy lookup table of
section 4.3.  The implementing module (the Python master agent) is not under
src, only its documentation and demo transcripts are, so the table is taken
from the specification: fewer than 10K rows gives 1 schema agent, 1 merge
agent, tier small; 10K to 100K gives 2, 3, medium; 100K to 1M gives 3, 7,
x-large; above 1M gives 3, 10 (the cap), x-large.  The complexity column of
the table (low, medium, high, any) accompanies these row ranges, and the
decision is the deterministic lookup on the combined row count. -/
def allocate (rowCount : Nat) : Allocation :=
  if rowCount < 10000 then ⟨1, 1, .small⟩
  else if rowCount ≤ 100000 then ⟨2, 3, .medium⟩
  else if rowCount ≤ 1000000 then ⟨3, 7, .xlarge⟩
  else ⟨3, 10, .xlarge⟩

end Alloc

namespace Reg

/-- Modelled from the spec: the closed capability tag set of section 3. -/
inductive Capability where
  | dataIngestion
  | schemaAnalysis
  | conflictDetection
  | sqlGeneration
  | mergeExecution
  | dataQuality
deriving DecidableEq, Repr

/-- Modelled from the spec: a ToolDescriptor, reduced to the parts the
registry claims concern (its unique name and the capability it serves). -/
structure ToolDescriptor where
  name : String
  capability : Capability
deriving DecidableEq, Repr

instance : Inhabited ToolDescriptor := ⟨⟨"", .dataIngestion⟩⟩

/-- Modelled from the spec: an AgentDescriptor with identity, logical type,
claimed capabilities and exposed tools. -/
structure AgentDescriptor where
  id : String
  agentType : String
  capabilities : List Capability
  tools : List ToolDescriptor
deriving DecidableEq, Repr

/-- The registry error taxonomy of section 7 restricted to the registry
operations under proof. -/
inductive RegError where
  | duplicateAgent
  | duplicateTool
  | noProvider
deriving DecidableEq, Repr

/-- Modelled from the spec: the Capability Registry state, the agent table in
insertion order plus one round-robin cursor per capability. -/
structure Registry where
  agents : List AgentDescriptor
  cursors : Capability → Nat

/-- Modelled from the spec: register of section 4.1.  Fails with
DuplicateAgentError when the id already exists, with DuplicateToolError when
any tool name collides with an existing registration, and otherwise appends
the agent; the registry is returned next to the result so that non-mutation
on failure is expressible. -/
def register (r : Registry) (d : AgentDescriptor) :
    Except RegError Unit × Registry :=
  if r.agents.any (fun a => a.id = d.id) then (.error .duplicateAgent, r)
  else if d.tools.any (fun t =>
      r.agents.any (fun a => a.tools.any (fun u => u.name = t.name))) then
    (.error .duplicateTool, r)
  else (.ok (), { r with agents := r.agents ++ [d] })

/-- Modelled from the spec: discoverAgents of section 4.1, the insertion
ordered set of agents claiming the capability. -/
def discoverAgents (r : Registry) (c : Capability) : List AgentDescriptor :=
  r.agents.filter (fun a => decide (c ∈ a.capabilities))

/-- Modelled from the spec: the discovery set of tools serving a capability,
the pool invokeCapability selects from. -/
def providers (r : Registry) (c : Capability) : List ToolDescriptor :=
  ((r.agents.map (fun a => a.tools)).flatten).filter (fun t => decide (t.capability = c))

/-- Modelled from the spec: invokeCapability of section 4.1.  With an empty
discovery set it fails with NoProviderError; otherwise it selects the
provider at the per-capability round-robin cursor position, advances that
cursor (state retained across calls) and leaves all other registry state
untouched.  Delegation to the selected tool's handler is outside the
selection policy under proof. -/
def invokeCapability (r : Registry) (c : Capability) :
    Except RegError ToolDescriptor × Registry :=
  let ps := providers r c
  if ps.isEmpty then (.error .noProvider, r)
  else
    (.ok (ps.getD (r.cursors c % ps.length) default),
     { r with cursors := fun c2 => if c2 = c then r.cursors c + 1 else r.cursors c2 })

/-- N successive invokeCapability calls for one capability, collecting the
results; the cursor state flows from each call into the next. -/
def invokeN (c : Capability) : Nat → Registry → List (Except RegError ToolDescriptor) × Registry
  | 0, r => ([], r)
  | Nat.succ n, r =>
    let step := invokeCapability r c
    let rest := invokeN c n step.2
    (step.1 :: rest.1, rest.2)

/-- How many of the first N round-robin selections starting from cursor
position start fall on provider index i, with M providers. -/
def rrVisits (M start N i : Nat) : Nat :=
  (List.range N).countP (fun k => decide ((start + k) % M = i))

end Reg

namespace Fixtures

/-- A concrete high severity conflict record, of the shape the UI consumes. -/
def highConflict : Conflict.DataConflict :=
  { id := "conflict-1", rowNumber := 7, field := "balance",
    sourceValue := "100.00", targetValue := "100", type := .mismatch,
    severity := .high, aiSuggestion := "use source", resolutionOptions := ["Use Bank A"] }

/-- A concrete format conflict record; its kind tag has no counterpart in the
specification's claimed kind set. -/
def formatConflict : Conflict.DataConflict :=
  { id := "conflict-2", rowNumber := 3, field := "transaction_date",
    sourceValue := "2024-10-04", targetValue := "10/04/2024", type := .format,
    severity := .low, aiSuggestion := "normalize to ISO", resolutionOptions := ["Use ISO"] }

/-- An App state sitting at the conflicts step with one unresolved high
severity conflict. -/
def conflictsState : App.AppState :=
  { step := .conflicts, sourceData := [[("account_num", "ACC001")]],
    targetData := [[("account_number", "TGT101")]],
    mappings := [{ sourceField := "account_num", targetField := "account_number",
                   confidence := 19/20, status := .confirmed }],
    mergedData := [], conflicts := [highConflict] }

/-- An App state at the upload step with nothing loaded yet. -/
def uploadState : App.AppState :=
  { step := .upload, sourceData := [], targetData := [], mappings := [],
    mergedData := [], conflicts := [highConflict] }

/-- The single mapping generateAIMappings produces for the witness fields. -/
def wmap : Sim.FieldMapping :=
  { sourceField := "account_num", targetField := "account_number",
    confidence := 95/100, status := .confirmed }

/-- A two-provider registry for the round-robin witness: one agent exposing
two merge-execution tools, cursors at zero. -/
def rrRegistry : Reg.Registry :=
  { agents := [{ id := "merge-pool", agentType := "merge",
                 capabilities := [.mergeExecution],
                 tools := [⟨"merge-a", .mergeExecution⟩, ⟨"merge-b", .mergeExecution⟩] }],
    cursors := fun _ => 0 }

/-- A registered agent used by the duplicate-registration witness. -/
def regAgent : Reg.AgentDescriptor :=
  { id := "schema-1", agentType := "schema",
    capabilities := [.schemaAnalysis], tools := [⟨"read-schema", .schemaAnalysis⟩] }

/-- A second agent reusing the id of the first, for the duplicate witness. -/
def dupAgent : Reg.AgentDescriptor :=
  { id := "schema-1", agentType := "schema",
    capabilities := [.dataQuality], tools := [⟨"quality-scan", .dataQuality⟩] }

/-- A registry already holding the witness agent. -/
def oneAgentRegistry : Reg.Registry :=
  { agents := [regAgent], cursors := fun _ => 0 }

end Fixtures

/-- C1, counterexample.  The claim fails on the code: the pipeline state with
one unresolved high severity conflict (flagged by the specification's
requiresApproval predicate) sits at the conflict-review step, and handleMerge
advances it straight to the results (merge) step; App.tsx has no
awaiting-approval state at all, so no approval pause is ever interposed. -/
theorem merge_reaches_results_despite_flagged_conflict :
    Conflict.requiresApprovalSpec Fixtures.conflictsState.conflicts = true ∧
    Fixtures.conflictsState.step = App.Step.conflicts ∧
    (App.handleMerge Fixtures.conflictsState).step = App.Step.results := by
  refine ⟨by decide, rfl, rfl⟩

/-- C1, amended.  handleMerge is unconditional: from any state whose conflict
list the specification's requiresApproval predicate flags, it still advances
the step to results and leaves the conflict list untouched — there is no
approval gate and no awaiting-approval state in the Step type; the only
approval is the user clicking the merge button. -/
theorem handleMerge_ignores_flagged_conflicts (s : App.AppState)
    (_hstep : s.step = App.Step.conflicts)
    (_hflag : Conflict.requiresApprovalSpec s.conflicts = true) :
    (App.handleMerge s).step = App.Step.results ∧
    (App.handleMerge s).conflicts = s.conflicts :=
  ⟨rfl, rfl⟩

/-- C1, witness for the amended theorem at the concrete conflicts state. -/
theorem handleMerge_ignores_flagged_conflicts_witness :
    (App.handleMerge Fixtures.conflictsState).step = App.Step.results ∧
    (App.handleMerge Fixtures.conflictsState).conflicts =
      Fixtures.conflictsState.conflicts :=
  handleMerge_ignores_flagged_conflicts Fixtures.conflictsState rfl (by decide)

/-- C2, counterexample.  The claim fails on the code: the Back-to-Mappings
button of the conflicts view returns the pipeline from the conflicts step to
the strictly earlier mapping step. -/
theorem back_button_returns_to_earlier_step :
    Fixtures.conflictsState.step = App.Step.conflicts ∧
    (App.backToMappings Fixtures.conflictsState).step = App.Step.mapping ∧
    App.Step.idx (App.backToMappings Fixtures.conflictsState).step <
      App.Step.idx Fixtures.conflictsState.step := by
  refine ⟨rfl, rfl, by decide⟩

/-- C2, amended.  The forward handlers do move strictly forward along
upload, mapping, conflicts, results: handleAnalyze from the upload step with
two parsed datasets, handleContinueToConflicts from mapping, and handleMerge
from conflicts each strictly increase the step index; the machine is
nevertheless not forward-only because Back-to-Mappings and Start-New move
backward, and App.tsx keeps no step log. -/
theorem forward_handlers_strictly_advance (s : App.AppState)
    (parsed : List (List App.Row)) :
    (s.step = App.Step.upload → 2 ≤ parsed.length →
      App.Step.idx s.step < App.Step.idx (App.handleAnalyze s parsed).step) ∧
    (s.step = App.Step.mapping →
      App.Step.idx s.step < App.Step.idx (App.handleContinueToConflicts s).step) ∧
    (s.step = App.Step.conflicts →
      App.Step.idx s.step < App.Step.idx (App.handleMerge s).step) := by
  refine ⟨?_, ?_, ?_⟩
  · intro h hlen
    rcases parsed with _ | ⟨d1, _ | ⟨d2, rest⟩⟩
    · simp at hlen
    · simp at hlen
    · simp only [App.handleAnalyze]
      rw [if_neg (by simp)]
      simp [h, App.Step.idx]
  · intro h
    simp [App.handleContinueToConflicts, h, App.Step.idx]
  · intro h
    simp [App.handleMerge, h, App.Step.idx]

/-- C2, witness for the amended theorem: a concrete analyze from upload and a
concrete merge from conflicts both strictly advance the step index. -/
theorem forward_handlers_strictly_advance_witness :
    App.Step.idx Fixtures.uploadState.step <
      App.Step.idx (App.handleAnalyze Fixtures.uploadState
        [[[("account_num", "ACC001")]], [[("account_number", "TGT101")]]]).step ∧
    App.Step.idx Fixtures.conflictsState.step <
      App.Step.idx (App.handleMerge Fixtures.conflictsState).step :=
  ⟨(forward_handlers_strictly_advance Fixtures.uploadState _).1 rfl (by decide),
   (forward_handlers_strictly_advance Fixtures.conflictsState []).2.2 rfl⟩

/-- C3, spec-modelled.  The allocation policy is the deterministic lookup
table: the four sampled inputs give exactly the claimed allocations, the
merge-agent count never exceeds 10, and the allocation is componentwise
non-decreasing in the row count. -/
theorem allocate_matches_table_and_monotone :
    Alloc.allocate 5000 = ⟨1, 1, .small⟩ ∧
    Alloc.allocate 50000 = ⟨2, 3, .medium⟩ ∧
    Alloc.allocate 500000 = ⟨3, 7, .xlarge⟩ ∧
    Alloc.allocate 2000000 = ⟨3, 10, .xlarge⟩ ∧
    (∀ r, (Alloc.allocate r).mergeAgents ≤ 10) ∧
    (∀ r₁ r₂, r₁ ≤ r₂ → Alloc.Allocation.le (Alloc.allocate r₁) (Alloc.allocate r₂)) := by
  refine ⟨by norm_num [Alloc.allocate], by norm_num [Alloc.allocate],
    by norm_num [Alloc.allocate], by norm_num [Alloc.allocate], ?_, ?_⟩
  · intro r
    unfold Alloc.allocate
    split_ifs <;> simp
  · intro r₁ r₂ h
    unfold Alloc.allocate
    split_ifs <;>
      simp_all [Alloc.Allocation.le, Alloc.Tier.rank] <;> omega

/-- C3, witness: the monotonicity conjunct at the concrete pair 5000 and
2000000 rows. -/
theorem allocate_matches_table_and_monotone_witness :
    Alloc.Allocation.le (Alloc.allocate 5000) (Alloc.allocate 2000000) :=
  allocate_matches_table_and_monotone.2.2.2.2.2 5000 2000000 (by norm_num)

/-- C5, counterexample.  The claim fails on the code: the timeout of
sendToMCPServer is the hard-coded constant 30000 ms, taken from no request
and no configuration, so the timeout in force can never differ between two
invocations. -/
theorem timeout_not_configurable : ¬ Server.timeoutConfigurable := by
  rintro ⟨r1, r2, h⟩
  exact h rfl

/-- C5, amended.  Every MCP invocation has a per-invocation timeout fixed at
30000 ms (not configurable); when the response has not arrived by then the
invocation fails with the timeout rejection — a failure, not indeterminate —
and the child process is left untouched, the server attempting no
cancellation of the in-flight work. -/
theorem sendToMCPServer_fixed_timeout {α : Type} (proc : Server.ProcState)
    (respondsAt : Nat) (resp : α) :
    (∀ r : String, Server.timeoutInForce r = 30000) ∧
    (Server.mcpTimeoutMs ≤ respondsAt →
      Server.sendToMCPServer proc respondsAt resp = (.timedOut, proc)) ∧
    (respondsAt < Server.mcpTimeoutMs →
      Server.sendToMCPServer proc respondsAt resp = (.ok resp, proc)) := by
  refine ⟨fun _ => rfl, fun h => ?_, fun h => ?_⟩
  · unfold Server.sendToMCPServer
    rw [if_neg (by omega)]
  · unfold Server.sendToMCPServer
    rw [if_pos h]

/-- C5, witness for the amended theorem: a response arriving exactly at the
30000 ms mark times out and the process state is unchanged. -/
theorem sendToMCPServer_fixed_timeout_witness :
    Server.sendToMCPServer ⟨false⟩ 30000 "late" =
      (Server.MCPOutcome.timedOut, (⟨false⟩ : Server.ProcState)) :=
  (sendToMCPServer_fixed_timeout ⟨false⟩ 30000 "late").2.1 (by decide)

/-- C7, counterexample.  The claim fails on the code: the conflict record
type of ConflictResolutionPanel.tsx admits the kind tag format, which is
outside the claimed kind set (type-mismatch, duplicate-key,
semantic-ambiguity); the concrete format conflict exhibits it. -/
theorem format_conflict_kind_outside_claimed_set :
    Fixtures.formatConflict.type = Conflict.ConflictType.format ∧
    ¬ Conflict.specKind Fixtures.formatConflict.type := by
  refine ⟨rfl, by decide⟩

/-- C7, amended.  Every conflict record the UI consumes has severity drawn
from high, medium, low (a proper subset of the claimed severity set; critical
does not occur) and kind drawn from duplicate, mismatch, format; the records
carry no confidence score at all. -/
theorem conflict_record_tags (c : Conflict.DataConflict) :
    (c.severity = .high ∨ c.severity = .medium ∨ c.severity = .low) ∧
    (c.type = .duplicate ∨ c.type = .mismatch ∨ c.type = .format) := by
  constructor
  · cases c.severity <;> simp
  · cases c.type <;> simp

/-- C10.  A POST to /api/chatbot whose body lacks a message returns status
400 with an error payload and leaves the MCP process table exactly as it
was: no process is started or replaced on this path. -/
theorem chatbot_missing_message_400_leaves_processes
    (table : List (String × Server.ProcState)) (freshProc : Server.ProcState)
    (respondsAt : Nat) (mcpError : Option String) (mcpResult : String) :
    Server.chatbotPost ⟨none⟩ table freshProc respondsAt mcpError mcpResult =
      ({ status := 400, error := some "Message is required", result := none },
        table) := rfl

/-- Membership in a row after a JS property assignment: every pair either was
already present or is the newly written pair. -/
theorem setKey_mem {α : Type} {row : List (String × α)} {k : String} {v : α}
    {p : String × α} (hp : p ∈ Sim.setKey row k v) : p ∈ row ∨ p = (k, v) := by
  unfold Sim.setKey at hp
  split_ifs at hp with hany
  · rcases List.mem_map.mp hp with ⟨q, hq, hqe⟩
    by_cases hk : q.1 = k
    · right
      rw [if_pos hk] at hqe
      exact hqe.symm
    · left
      rw [if_neg hk] at hqe
      exact hqe ▸ hq
  · rcases List.mem_append.mp hp with h | h
    · exact .inl h
    · right
      simpa using h

/-- Provenance through the fold of transformRow: every pair of the result was
in the accumulator already or was written by some mapping of the list whose
sourceField the row possesses. -/
theorem transformRow_fold_prov {α : Type} (row : List (String × α)) :
    ∀ (ms : List Sim.FieldMapping) (acc : List (String × α)) (p : String × α),
      p ∈ ms.foldl (fun acc m =>
        match row.lookup m.sourceField with
        | some v => Sim.setKey acc m.targetField v
        | none => acc) acc →
      p ∈ acc ∨ ∃ mp ∈ ms, p.1 = mp.targetField ∧ row.lookup mp.sourceField = some p.2 := by
  intro ms
  induction ms with
  | nil =>
    intro acc p hp
    exact .inl hp
  | cons m rest ih =>
    intro acc p hp
    simp only [List.foldl_cons] at hp
    rcases hl : row.lookup m.sourceField with _ | v
    · rw [hl] at hp
      rcases ih acc p hp with h | ⟨mp, hmp, he⟩
      · exact .inl h
      · exact .inr ⟨mp, List.mem_cons_of_mem m hmp, he⟩
    · rw [hl] at hp
      rcases ih (Sim.setKey acc m.targetField v) p hp with h | ⟨mp, hmp, he⟩
      · rcases setKey_mem h with h2 | h2
        · exact .inl h2
        · refine .inr ⟨m, List.mem_cons_self m rest, ?_, ?_⟩
          · rw [h2]
          · rw [hl, h2]
      · exact .inr ⟨mp, List.mem_cons_of_mem m hmp, he⟩

/-- C9.  mergeDatasets returns a list of length source plus target; its first
entries are exactly the source rows transformed through the mappings, its
last entries are the target rows unchanged, and every field of a transformed
row was written by some mapping whose targetField names it and whose
sourceField the row possesses (unmapped fields are dropped).  Inputs are
never mutated: the embedding is pure and both arguments are read only. -/
theorem mergeDatasets_shape {α : Type} (s t : List (List (String × α)))
    (m : List Sim.FieldMapping) :
    (Sim.mergeDatasets s t m).length = s.length + t.length ∧
    (∀ i (h : i < s.length),
      (Sim.mergeDatasets s t m)[i]? = some (Sim.transformRow m (s.get ⟨i, h⟩))) ∧
    (∀ j (h : j < t.length),
      (Sim.mergeDatasets s t m)[s.length + j]? = some (t.get ⟨j, h⟩)) ∧
    (∀ (r : List (String × α)) (p : String × α), p ∈ Sim.transformRow m r →
      ∃ mp ∈ m, p.1 = mp.targetField ∧ r.lookup mp.sourceField = some p.2) := by
  refine ⟨by simp [Sim.mergeDatasets], ?_, ?_, ?_⟩
  · intro i h
    unfold Sim.mergeDatasets
    rw [List.getElem?_append_left (by simpa using h), List.getElem?_map,
      List.getElem?_eq_getElem h]
    rfl
  · intro j h
    unfold Sim.mergeDatasets
    rw [List.getElem?_append_right (by simp), List.getElem?_eq_getElem (by simpa using h)]
    simp
  · intro r p hp
    have := transformRow_fold_prov r m [] p (by simpa [Sim.transformRow] using hp)
    simpa using this

/-- C9, witness: the concrete one-row merge evaluates to the transformed
source row followed by the unchanged target row. -/
theorem mergeDatasets_shape_witness :
    (Sim.mergeDatasets [[("account_num", "1")]] [[("account_number", "9")]]
      [Fixtures.wmap]).length = 1 + 1 ∧
    (Sim.mergeDatasets [[("account_num", "1")]] [[("account_number", "9")]]
      [Fixtures.wmap])[0]? =
      some (Sim.transformRow [Fixtures.wmap] [("account_num", "1")]) := by
  have h := mergeDatasets_shape [[("account_num", "1")]] [[("account_number", "9")]]
    [Fixtures.wmap]
  exact ⟨h.1, by simpa using h.2.1 0 (by decide)⟩

/-- A preserved predicate survives a left fold. -/
theorem foldl_preserve {α β : Type} (P : β → Prop) (g : β → α → β)
    (hg : ∀ b a, P b → P (g b a)) :
    ∀ (l : List α) (b : β), P b → P (l.foldl g b) := by
  intro l
  induction l with
  | nil =>
    intro b hb
    simpa using hb
  | cons a rest ih =>
    intro b hb
    rw [List.foldl_cons]
    exact ih _ (hg b a hb)

/-- A quotient of naturals with numerator at most denominator is at most one
(including the degenerate zero denominator, where division yields zero). -/
theorem nat_ratio_le_one {a b : Nat} (h : a ≤ b) : ((a : ℚ)) / (b : ℚ) ≤ 1 := by
  rcases Nat.eq_zero_or_pos b with hb | hb
  · have ha : a = 0 := by omega
    subst ha
    subst hb
    norm_num
  · rw [div_le_one (by exact_mod_cast hb)]
    exact_mod_cast h

/-- The character-overlap fraction never exceeds one: the count of matching
characters of the shorter name is bounded by the longer name's length. -/
theorem ratioScore_le_one (s1 s2 : List Char) : Sim.ratioScore s1 s2 ≤ 1 := by
  simp only [Sim.ratioScore]
  by_cases hlen : s2.length < s1.length
  · rw [if_pos hlen, if_pos hlen]
    exact nat_ratio_le_one (le_trans (List.countP_le_length _) (by omega))
  · rw [if_neg hlen, if_neg hlen]
    exact nat_ratio_le_one (le_trans (List.countP_le_length _) (by omega))

/-- Every branch of the similarity cascade scores at most one. -/
theorem simScore_le_one (s1 s2 : List Char) : Sim.simScore s1 s2 ≤ 1 := by
  unfold Sim.simScore
  split_ifs
  · norm_num
  · norm_num
  · norm_num
  · exact ratioScore_le_one s1 s2

/-- calculateSimilarity never exceeds one. -/
theorem calculateSimilarity_le_one (str1 str2 : String) :
    Sim.calculateSimilarity str1 str2 ≤ 1 :=
  simScore_le_one _ _

/-- One step of the inner loop keeps the best confidence at most one. -/
theorem bestStep_le_one (src : String) (used : List String) (b : Sim.Best)
    (t : String) (hb : b.confidence ≤ 1) :
    (Sim.bestStep src used b t).confidence ≤ 1 := by
  simp only [Sim.bestStep]
  split_ifs
  · exact hb
  · exact calculateSimilarity_le_one src t
  · exact hb

/-- One step of the inner loop keeps the invariant that the best candidate is
either still the initial zero-confidence sentinel or an unused target. -/
theorem bestStep_fresh (src : String) (used : List String) (b : Sim.Best)
    (t : String) (hb : b.confidence = 0 ∨ ¬ b.field ∈ used) :
    (Sim.bestStep src used b t).confidence = 0 ∨
      ¬ (Sim.bestStep src used b t).field ∈ used := by
  simp only [Sim.bestStep]
  split_ifs with h1 _h2
  · exact hb
  · right
    intro hmem
    exact h1 (by simpa using hmem)
  · exact hb

/-- The best match of the inner loop has confidence at most one and, unless
it is the zero sentinel, names a target not yet used. -/
theorem bestMatch_inv (src : String) (ts used : List String) :
    (Sim.bestMatch src ts used).confidence ≤ 1 ∧
    ((Sim.bestMatch src ts used).confidence = 0 ∨
      ¬ (Sim.bestMatch src ts used).field ∈ used) := by
  unfold Sim.bestMatch
  exact foldl_preserve
    (fun b => b.confidence ≤ 1 ∧ (b.confidence = 0 ∨ ¬ b.field ∈ used))
    (Sim.bestStep src used)
    (fun b t hb => ⟨bestStep_le_one src used b t hb.1, bestStep_fresh src used b t hb.2⟩)
    ts { field := "", confidence := 0 } ⟨by norm_num, Or.inl rfl⟩

/-- Every mapping emitted by the outer loop has confidence strictly above one
half and at most one, and its status is confirmed exactly when the confidence
exceeds four fifths, else suggested. -/
theorem genAux_mem_spec (ts : List String) :
    ∀ (src used : List String) (m : Sim.FieldMapping),
      m ∈ Sim.generateAIMappingsAux src ts used →
      ((1 : ℚ)/2 < m.confidence ∧ m.confidence ≤ 1) ∧
      (m.status = .confirmed ↔ (4 : ℚ)/5 < m.confidence) ∧
      (m.status = .confirmed ∨ m.status = .suggested) := by
  intro src
  induction src with
  | nil =>
    intro used m hm
    simp [Sim.generateAIMappingsAux] at hm
  | cons s rest ih =>
    intro used m hm
    simp only [Sim.generateAIMappingsAux] at hm
    by_cases hc : (1 : ℚ)/2 < (Sim.bestMatch s ts used).confidence
    · rw [if_pos hc] at hm
      rcases List.mem_cons.mp hm with rfl | hm2
      · refine ⟨⟨hc, (bestMatch_inv s ts used).1⟩, ?_, ?_⟩
        · dsimp only
          split_ifs with h8 <;> simp [h8]
        · dsimp only
          split_ifs <;> simp
      · exact ih _ m hm2
    · rw [if_neg hc] at hm
      exact ih _ m hm

/-- The outer loop emits pairwise distinct target fields, none of them
already used. -/
theorem genAux_nodup (ts : List String) :
    ∀ (src used : List String),
      ((Sim.generateAIMappingsAux src ts used).map (fun m => m.targetField)).Nodup ∧
      (∀ m ∈ Sim.generateAIMappingsAux src ts used, ¬ m.targetField ∈ used) := by
  intro src
  induction src with
  | nil =>
    intro used
    simp [Sim.generateAIMappingsAux]
  | cons s rest ih =>
    intro used
    simp only [Sim.generateAIMappingsAux]
    by_cases hc : (1 : ℚ)/2 < (Sim.bestMatch s ts used).confidence
    · rw [if_pos hc]
      have hfresh : ¬ (Sim.bestMatch s ts used).field ∈ used := by
        rcases (bestMatch_inv s ts used).2 with h0 | h
        · rw [h0] at hc
          norm_num at hc
        · exact h
      obtain ⟨ihn, ihf⟩ := ih ((Sim.bestMatch s ts used).field :: used)
      constructor
      · simp only [List.map_cons, List.nodup_cons]
        refine ⟨?_, ihn⟩
        intro hmem
        rcases List.mem_map.mp hmem with ⟨m2, hm2, he⟩
        exact ihf m2 hm2 (he ▸ List.mem_cons_self _ _)
      · intro m hm
        rcases List.mem_cons.mp hm with rfl | hm2
        · exact hfresh
        · intro hmem
          exact ihf m hm2 (List.mem_cons_of_mem _ hmem)
    · rw [if_neg hc]
      obtain ⟨ihn, ihf⟩ := ih used
      exact ⟨ihn, fun m hm => ihf m hm⟩

/-- C8.  Every mapping generateAIMappings returns has confidence strictly
greater than 0.5 and at most 1, its status is confirmed exactly when the
confidence exceeds 0.8 and suggested otherwise, and no two returned mappings
share a target field. -/
theorem generateAIMappings_spec (src tgt : List String) :
    (∀ m ∈ Sim.generateAIMappings src tgt,
      ((1 : ℚ)/2 < m.confidence ∧ m.confidence ≤ 1) ∧
      (m.status = .confirmed ↔ (4 : ℚ)/5 < m.confidence) ∧
      (m.status = .confirmed ∨ m.status = .suggested)) ∧
    ((Sim.generateAIMappings src tgt).map (fun m => m.targetField)).Nodup :=
  ⟨fun m hm => genAux_mem_spec tgt src [] m hm, (genAux_nodup tgt src []).1⟩

/-- C8, witness: the single mapping produced for the synonym pair account_num
and account_number has confidence 0.95, within the claimed bounds and
confirmed. -/
theorem generateAIMappings_spec_witness :
    ((1 : ℚ)/2 < Fixtures.wmap.confidence ∧ Fixtures.wmap.confidence ≤ 1) ∧
    (Fixtures.wmap.status = .confirmed ↔ (4 : ℚ)/5 < Fixtures.wmap.confidence) ∧
    (Fixtures.wmap.status = .confirmed ∨ Fixtures.wmap.status = .suggested) := by
  have hsim : Sim.calculateSimilarity "account_num" "account_number" = 95/100 := by
    unfold Sim.calculateSimilarity Sim.simScore
    rw [if_neg (by decide), if_pos (by decide)]
  have hbest : Sim.bestMatch "account_num" ["account_number"] [] =
      { field := "account_number", confidence := 95/100 } := by
    unfold Sim.bestMatch Sim.bestStep
    simp only [List.foldl_cons, List.foldl_nil, hsim]
    rw [if_neg (by decide), if_pos (by norm_num)]
  have hlist : Sim.generateAIMappings ["account_num"] ["account_number"] =
      [Fixtures.wmap] := by
    unfold Sim.generateAIMappings
    simp only [Sim.generateAIMappingsAux, hbest]
    rw [if_pos (by norm_num), if_pos (by norm_num)]
    rfl
  exact (generateAIMappings_spec ["account_num"] ["account_number"]).1
    Fixtures.wmap (hlist ▸ List.mem_singleton.mpr rfl)

/-- C6, spec-modelled.  discoverAgents returns exactly the registered agents
claiming the capability — no more, no less — as a sublist of the agent table,
hence in insertion order; register against an existing id fails with
DuplicateAgentError leaving the registry unchanged, and a fresh id whose
tools collide with an existing tool name fails with DuplicateToolError,
likewise leaving the registry unchanged. -/
theorem registry_discovery_and_duplicates (r : Reg.Registry) (c : Reg.Capability)
    (d : Reg.AgentDescriptor) :
    (∀ a : Reg.AgentDescriptor,
      a ∈ Reg.discoverAgents r c ↔ (a ∈ r.agents ∧ c ∈ a.capabilities)) ∧
    (Reg.discoverAgents r c).Sublist r.agents ∧
    ((∃ a ∈ r.agents, a.id = d.id) →
      Reg.register r d = (.error .duplicateAgent, r)) ∧
    ((¬ ∃ a ∈ r.agents, a.id = d.id) →
      (∃ t ∈ d.tools, ∃ a ∈ r.agents, ∃ u ∈ a.tools, u.name = t.name) →
      Reg.register r d = (.error .duplicateTool, r)) := by
  refine ⟨?_, List.filter_sublist _, ?_, ?_⟩
  · intro a
    simp [Reg.discoverAgents, List.mem_filter]
  · rintro ⟨a, ha, hid⟩
    have h1 : r.agents.any (fun a => a.id = d.id) = true :=
      List.any_eq_true.mpr ⟨a, ha, decide_eq_true hid⟩
    simp [Reg.register, h1]
  · intro hno htool
    unfold Reg.register
    split_ifs with h1 h2
    · obtain ⟨a, ha, hdec⟩ := List.any_eq_true.mp h1
      exact absurd ⟨a, ha, of_decide_eq_true hdec⟩ hno
    · rfl
    · obtain ⟨t, ht, a, ha, u, hu, hname⟩ := htool
      exact absurd (List.any_eq_true.mpr ⟨t, ht, List.any_eq_true.mpr
        ⟨a, ha, List.any_eq_true.mpr ⟨u, hu, decide_eq_true hname⟩⟩⟩) h2

/-- C6, witness: registering an agent whose id is already present fails with
DuplicateAgentError and returns the registry untouched, while discovery still
finds the original agent under its capability. -/
theorem registry_discovery_and_duplicates_witness :
    Reg.register Fixtures.oneAgentRegistry Fixtures.dupAgent =
      (.error .duplicateAgent, Fixtures.oneAgentRegistry) ∧
    Fixtures.regAgent ∈ Reg.discoverAgents Fixtures.oneAgentRegistry .schemaAnalysis := by
  have h := registry_discovery_and_duplicates Fixtures.oneAgentRegistry
    .schemaAnalysis Fixtures.dupAgent
  refine ⟨h.2.2.1 ⟨Fixtures.regAgent, List.mem_singleton.mpr rfl, rfl⟩, ?_⟩
  exact (h.1 Fixtures.regAgent).mpr ⟨List.mem_singleton.mpr rfl, by decide⟩

/-- A natural below the modulus written as a remainder after adding a
multiple: helper form of the modulus as a two-case subtraction. -/
theorem add_mod_cases (a x M : Nat) (ha : a < M) (hx : x < M) :
    (a + x) % M = if a + x < M then a + x else a + x - M := by
  rcases Nat.lt_or_ge (a + x) M with h | h
  · rw [Nat.mod_eq_of_lt h, if_pos h]
  · have h2 : a + x - M < M := by omega
    have h3 : a + x = (a + x - M) + M := by omega
    rw [if_neg (by omega), h3, Nat.add_mod_right, Nat.mod_eq_of_lt h2]
    omega

/-- Within one block of M consecutive offsets, each residue class is hit
exactly once by the round-robin selection. -/
theorem countP_block_eq_one (M c i : Nat) (hM : 0 < M) (hi : i < M) :
    (List.range M).countP (fun k => decide ((c + k) % M = i)) = 1 := by
  have ha : c % M < M := Nat.mod_lt c hM
  have hshift : ∀ x, x < M → (c + x) % M = (c % M + x) % M := by
    intro x hx
    rw [Nat.add_mod, Nat.mod_eq_of_lt hx]
  have hinj : ∀ x ∈ List.range M, ∀ y ∈ List.range M,
      (fun k => (c + k) % M) x = (fun k => (c + k) % M) y → x = y := by
    intro x hx y hy hxy
    simp only [List.mem_range] at hx hy
    simp only at hxy
    rw [hshift x hx, hshift y hy, add_mod_cases _ _ _ ha hx,
      add_mod_cases _ _ _ ha hy] at hxy
    split_ifs at hxy <;> omega
  have hmem : i ∈ (List.range M).map (fun k => (c + k) % M) := by
    apply List.mem_map.mpr
    by_cases hia : c % M ≤ i
    · refine ⟨i - c % M, List.mem_range.mpr (by omega), ?_⟩
      rw [hshift _ (by omega)]
      have he : c % M + (i - c % M) = i := by omega
      rw [he, Nat.mod_eq_of_lt hi]
    · refine ⟨M + i - c % M, List.mem_range.mpr (by omega), ?_⟩
      rw [hshift _ (by omega)]
      have he : c % M + (M + i - c % M) = M + i := by omega
      rw [he, Nat.add_mod_left, Nat.mod_eq_of_lt hi]
  have hcount : (List.range M).countP (fun k => decide ((c + k) % M = i)) =
      List.count i ((List.range M).map (fun k => (c + k) % M)) := by
    rw [List.count, List.countP_map]
    refine List.countP_congr ?_
    intro k _
    simp
  rw [hcount]
  exact List.count_eq_one_of_mem (List.Nodup.map_on hinj (List.nodup_range M)) hmem

/-- Over at most one block of offsets, each residue class is hit at most
once. -/
theorem countP_partial_le_one (M c i s : Nat) (hM : 0 < M) (hi : i < M)
    (hs : s ≤ M) :
    (List.range s).countP (fun k => decide ((c + k) % M = i)) ≤ 1 := by
  calc (List.range s).countP (fun k => decide ((c + k) % M = i))
      ≤ (List.range M).countP (fun k => decide ((c + k) % M = i)) :=
        List.Sublist.countP_le _ (List.range_sublist.mpr hs)
    _ = 1 := countP_block_eq_one M c i hM hi

/-- Splitting the visit count into whole blocks plus a remainder: each whole
block contributes exactly one visit to every residue class. -/
theorem rrVisits_block_decomp (M c i : Nat) (hM : 0 < M) (hi : i < M) :
    ∀ q s, Reg.rrVisits M c (q * M + s) i = q + Reg.rrVisits M c s i := by
  intro q
  induction q with
  | zero =>
    intro s
    simp [Reg.rrVisits]
  | succ n ih =>
    intro s
    have he : (n + 1) * M + s = M + (n * M + s) := by
      rw [Nat.succ_mul]
      omega
    rw [Reg.rrVisits, he, List.range_add, List.countP_append, List.countP_map]
    have h2 : (List.range (n * M + s)).countP
        ((fun k => decide ((c + k) % M = i)) ∘ (fun x => M + x)) =
        Reg.rrVisits M c (n * M + s) i := by
      unfold Reg.rrVisits
      refine List.countP_congr ?_
      intro k _
      simp only [Function.comp_apply, decide_eq_true_eq]
      have he2 : c + (M + k) = (c + k) + M := by omega
      rw [he2, Nat.add_mod_right]
    rw [h2, countP_block_eq_one M c i hM hi, ih s]
    omega

/-- Round-robin fairness: over any N selections the visit counts of two
residue classes differ by at most one. -/
theorem rrVisits_fair (M c N i j : Nat) (hM : 0 < M) (hi : i < M) (hj : j < M) :
    Reg.rrVisits M c N i ≤ Reg.rrVisits M c N j + 1 := by
  have hs : N % M < M := Nat.mod_lt N hM
  have hNeq : N = (N / M) * M + N % M := by
    rw [mul_comm]
    exact (Nat.div_add_mod N M).symm
  rw [hNeq, rrVisits_block_decomp M c i hM hi, rrVisits_block_decomp M c j hM hj]
  have h1 : Reg.rrVisits M c (N % M) i ≤ 1 :=
    countP_partial_le_one M c i (N % M) hM hi (le_of_lt hs)
  omega

/-- invokeCapability never changes the agent table. -/
theorem invokeCapability_agents (r : Reg.Registry) (c : Reg.Capability) :
    ((Reg.invokeCapability r c).2).agents = r.agents := by
  simp only [Reg.invokeCapability]
  split_ifs <;> rfl

/-- The discovery set depends only on the agent table. -/
theorem providers_eq_of_agents {r1 r2 : Reg.Registry}
    (h : r1.agents = r2.agents) (c : Reg.Capability) :
    Reg.providers r1 c = Reg.providers r2 c := by
  unfold Reg.providers
  rw [h]

/-- With a non-empty discovery set, invokeCapability selects the provider at
the cursor position and advances exactly the cursor of that capability. -/
theorem invokeCapability_step (r : Reg.Registry) (c : Reg.Capability)
    (h : Reg.providers r c ≠ []) :
    (Reg.invokeCapability r c).1 =
      .ok ((Reg.providers r c).getD
        (r.cursors c % (Reg.providers r c).length) default) ∧
    ((Reg.invokeCapability r c).2).cursors c = r.cursors c + 1 ∧
    (∀ c2, c2 ≠ c → ((Reg.invokeCapability r c).2).cursors c2 = r.cursors c2) := by
  have hne : (Reg.providers r c).isEmpty = false := by
    rcases he : (Reg.providers r c).isEmpty with _ | _
    · rfl
    · exact absurd (List.isEmpty_iff.mp he) h
  refine ⟨?_, ?_, ?_⟩
  · simp [Reg.invokeCapability, hne]
  · simp [Reg.invokeCapability, hne]
  · intro c2 hc2
    simp [Reg.invokeCapability, hne, hc2]

/-- The trace of N successive invokeCapability calls: call k returns the
provider at cursor plus k modulo the pool size, the agent table never
changes, and the capability's cursor ends N higher. -/
theorem invokeN_trace (c : Reg.Capability) :
    ∀ (N : Nat) (r : Reg.Registry), Reg.providers r c ≠ [] →
      (Reg.invokeN c N r).1 = (List.range N).map (fun k =>
        Except.ok ((Reg.providers r c).getD
          ((r.cursors c + k) % (Reg.providers r c).length) default)) ∧
      (Reg.invokeN c N r).2.agents = r.agents ∧
      (Reg.invokeN c N r).2.cursors c = r.cursors c + N := by
  intro N
  induction N with
  | zero =>
    intro r _h
    refine ⟨?_, ?_, ?_⟩ <;> simp [Reg.invokeN]
  | succ n ih =>
    intro r h
    have hag : ((Reg.invokeCapability r c).2).agents = r.agents :=
      invokeCapability_agents r c
    have hprov : Reg.providers (Reg.invokeCapability r c).2 c = Reg.providers r c :=
      providers_eq_of_agents hag c
    obtain ⟨hsel, hcur, _⟩ := invokeCapability_step r c h
    obtain ⟨ih1, ih2, ih3⟩ := ih (Reg.invokeCapability r c).2 (by rw [hprov]; exact h)
    refine ⟨?_, ?_, ?_⟩
    · show (Reg.invokeCapability r c).1 :: (Reg.invokeN c n (Reg.invokeCapability r c).2).1 = _
      rw [hsel, ih1, hprov, hcur, List.range_succ_eq_map, List.map_cons, List.map_map]
      rw [List.cons_eq_cons]
      constructor
      · norm_num
      · refine List.map_congr_left ?_
        intro a _
        have he : r.cursors c + 1 + a = r.cursors c + (a + 1) := by omega
        simp only [Function.comp_apply, Nat.succ_eq_add_one, he]
    · show (Reg.invokeN c n (Reg.invokeCapability r c).2).2.agents = r.agents
      rw [ih2, hag]
    · show (Reg.invokeN c n (Reg.invokeCapability r c).2).2.cursors c = r.cursors c + (n + 1)
      rw [ih3, hcur]
      omega

/-- C4, spec-modelled.  invokeCapability with an empty discovery set fails
with NoProviderError and leaves the registry untouched; with providers
present, the k-th of N successive calls selects the provider at cursor plus k
modulo the pool size (the per-capability cursor is retained across calls and
ends N higher), and over the N calls any two provider positions are visited
the same number of times up to one. -/
theorem invokeCapability_round_robin (r : Reg.Registry) (c : Reg.Capability)
    (N i j : Nat) :
    (Reg.providers r c = [] →
      Reg.invokeCapability r c = (.error .noProvider, r)) ∧
    (Reg.providers r c ≠ [] →
      (Reg.invokeN c N r).1 = (List.range N).map (fun k =>
        Except.ok ((Reg.providers r c).getD
          ((r.cursors c + k) % (Reg.providers r c).length) default)) ∧
      (Reg.invokeN c N r).2.cursors c = r.cursors c + N) ∧
    ((Reg.providers r c).length ≤ N → i < (Reg.providers r c).length →
      j < (Reg.providers r c).length →
      Reg.rrVisits (Reg.providers r c).length (r.cursors c) N i ≤
        Reg.rrVisits (Reg.providers r c).length (r.cursors c) N j + 1) := by
  refine ⟨?_, ?_, ?_⟩
  · intro h
    simp [Reg.invokeCapability, h]
  · intro h
    obtain ⟨h1, _, h3⟩ := invokeN_trace c N r h
    exact ⟨h1, h3⟩
  · intro _hMN hi hj
    exact rrVisits_fair _ _ N i j (by omega) hi hj

/-- C4, witness: in the two-provider registry, five successive calls visit
the provider positions three and two times (within one of each other), and a
capability with no providers fails with NoProviderError. -/
theorem invokeCapability_round_robin_witness :
    (Reg.rrVisits (Reg.providers Fixtures.rrRegistry .mergeExecution).length
        (Fixtures.rrRegistry.cursors .mergeExecution) 5 0 ≤
      Reg.rrVisits (Reg.providers Fixtures.rrRegistry .mergeExecution).length
        (Fixtures.rrRegistry.cursors .mergeExecution) 5 1 + 1) ∧
    Reg.invokeCapability Fixtures.rrRegistry .dataQuality =
      (.error .noProvider, Fixtures.rrRegistry) := by
  have h1 := invokeCapability_round_robin Fixtures.rrRegistry .mergeExecution 5 0 1
  have h2 := invokeCapability_round_robin Fixtures.rrRegistry .dataQuality 5 0 1
  exact ⟨h1.2.2 (by decide) (by decide) (by decide), h2.1 (by decide)⟩

end DataBridge
